import Mathlib

/-!
Verification of the Game of Life engine in src/main.ts.

The engine state (class Life) is a record of width, height, a row-major
cell matrix (0 = dead, 1 = alive) and a wrap flag.  Methods become pure
functions on that record; the in-place double loops that write every cell
of a height x width region become rebuilds of the corresponding rows, and
the ambient Math.random() source becomes an explicit per-cell draw
function.  Machine numbers are modelled as Int (coordinates, dimensions)
and Nat (cell values, counts); probabilities and random draws as Rat.
-/

/-- A grid is a row-major list of rows of cell values (0 = dead,
1 = alive), mirroring the TypeScript type Grid = number[][]. -/
abbrev Grid := List (List Nat)

/-- The engine state, mirroring the fields of class Life. -/
structure Life where
  width : Int
  height : Int
  cells : Grid
  wrap : Bool
deriving Repr, DecidableEq

/-- Row y of a grid, modelling the JavaScript read cells[y]; an
out-of-range index yields the empty row (never exercised by the embedded
operations, whose reads are guarded). -/
def rowAt (g : Grid) (y : Int) : List Nat := g.getD y.toNat []

/-- Cell read cells[y][x]; out-of-range indices read as 0.  Every read in
the source is guarded (by inBounds or by the wrap reduction), so the
default is never exercised there. -/
def cellAt (g : Grid) (y x : Int) : Nat := (g.getD y.toNat []).getD x.toNat 0

/-- Life.createEmpty on its successful path: height rows, each a
width-long array filled with 0, matching new Array(width).fill(0) for a
valid array length (0 ≤ width < 2^32).  The RangeError that new Array
raises for an invalid width when a row is actually allocated is modelled
at the construction entry point (Life.new); every engine reachable
through the public operations keeps a stored width that is a valid array
length, so the operation that reuses createEmpty on stored dimensions
(clear) only ever meets the successful path. -/
def createEmpty (width height : Int) : Grid :=
  (List.range height.toNat).map (fun _ => List.replicate width.toNat 0)

/-- The Life constructor: it stores the dimensions and wrap flag and
installs createEmpty.  It performs no dimension validation; the only way
it can fail (modelled as none) is the RangeError raised by
new Array(width) inside createEmpty, which happens exactly when some row
is actually allocated (height > 0) and width is not a valid JavaScript
array length (negative, or at least 2^32). -/
def Life.new (width height : Int) (wrap : Bool) : Option Life :=
  if 0 < height ∧ (width < 0 ∨ 2 ^ 32 ≤ width) then none
  else
    some { width := width, height := height, cells := createEmpty width height,
           wrap := wrap }

/-- Life.clear: replaces the cells with a fresh empty grid. -/
def Life.clear (l : Life) : Life :=
  { l with cells := createEmpty l.width l.height }

/-- Life.randomize: writes every cell (y, x) with y < height, x < width to
1 when its uniform draw is below prob, else 0.  The ambient Math.random()
is modelled by the explicit draw function; the in-place double loop over
the full height x width region is rendered as rebuilding those rows, which
coincides with the source on any grid of that shape (the shape the engine
always maintains). -/
def Life.randomize (l : Life) (prob : ℚ) (draw : Nat → Nat → ℚ) : Life :=
  { l with cells := (List.range l.height.toNat).map (fun y =>
      (List.range l.width.toNat).map (fun x => if draw y x < prob then 1 else 0)) }

/-- Life.inBounds: 0 ≤ x < width and 0 ≤ y < height. -/
def Life.inBounds (l : Life) (x y : Int) : Bool :=
  decide (0 ≤ x) && decide (x < l.width) && decide (0 ≤ y) && decide (y < l.height)

/-- Life.getWrapped: reads cells[(y + height) % height][(x + width) % width].
JavaScript remainder agrees with Int.emod whenever the dividend is
nonnegative, which holds at every call site (there x ≥ -1 and width ≥ 1,
so x + width ≥ 0, and likewise for y). -/
def Life.getWrapped (l : Life) (x y : Int) : Nat :=
  cellAt l.cells ((y + l.height) % l.height) ((x + l.width) % l.width)

/-- The eight (dx, dy) Moore-neighborhood offsets, in the order visited by
the countNeighbors double loop (dy outer, dx inner, skipping (0,0)). -/
def neighborOffsets : List (Int × Int) :=
  [(-1, -1), (0, -1), (1, -1), (-1, 0), (1, 0), (-1, 1), (0, 1), (1, 1)]

/-- Life.countNeighbors: accumulates, over the eight offsets, the wrapped
read when wrap is on, else the guarded direct read. -/
def Life.countNeighbors (l : Life) (x y : Int) : Nat :=
  (neighborOffsets.map (fun d =>
    if l.wrap then l.getWrapped (x + d.1) (y + d.2)
    else if l.inBounds (x + d.1) (y + d.2) then cellAt l.cells (y + d.2) (x + d.1)
    else 0)).sum

/-- The body of the nextGeneration double loop for one cell: the classic
rule applied to the neighbor count taken on the current grid. -/
def Life.nextCell (l : Life) (x y : Int) : Nat :=
  if cellAt l.cells y x = 1 then
    (if l.countNeighbors x y = 2 ∨ l.countNeighbors x y = 3 then 1 else 0)
  else
    (if l.countNeighbors x y = 3 then 1 else 0)

/-- Life.nextGeneration: builds the next grid into a fresh array, reading
every neighbor count from the current cells; replaces the live grid with
it and returns it together with the accumulated population (the sum of the
written next values).  Because the new grid is built apart from the old
one, the sweep mutates no cell of the input grid and its result does not
depend on the sweep order. -/
def Life.nextGeneration (l : Life) : Life × Nat :=
  let newCells : Grid := (List.range l.height.toNat).map (fun y =>
    (List.range l.width.toNat).map (fun x => l.nextCell (Int.ofNat x) (Int.ofNat y)))
  (({ l with cells := newCells } : Life), (newCells.map (fun row => row.sum)).sum)

/-- The toggle operation, as implemented by the canvas click path in the
source: xyFromEvent returns null for a position outside
[0,width) x [0,height) and the handler then leaves the grid untouched
(none models that OutOfBounds rejection); on a hit the handler flips the
one cell (1 becomes 0, anything else becomes 1). -/
def Life.toggle (l : Life) (x y : Int) : Option Life :=
  if x < 0 ∨ x ≥ l.width ∨ y < 0 ∨ y ≥ l.height then none
  else
    let newRow := (rowAt l.cells y).set x.toNat (if cellAt l.cells y x = 1 then 0 else 1)
    some { l with cells := l.cells.set y.toNat newRow }

/-- Number of ALIVE cells in a grid: the spec notion of population. -/
def countAlive (g : Grid) : Nat := (g.map (fun row => row.count 1)).sum

/-- The shape-and-encoding invariant the engine maintains: height rows,
each of width cells, every value 0 or 1. -/
def WellFormed (l : Life) : Prop :=
  l.cells.length = l.height.toNat ∧
  (∀ row ∈ l.cells, row.length = l.width.toNat) ∧
  (∀ row ∈ l.cells, ∀ v ∈ row, v ≤ 1)

instance (l : Life) : Decidable (WellFormed l) := by
  unfold WellFormed; infer_instance

/-- Spec-side reading of neighborCount, written from the spec text for the
refinement check against Life.countNeighbors: the number of offsets whose
resolved position holds an ALIVE cell, where with wrap each neighbor
coordinate is taken modulo width and height, and without wrap positions
outside [0,width) x [0,height) contribute nothing. -/
def mooreAliveCount (l : Life) (x y : Int) : Nat :=
  neighborOffsets.countP (fun d =>
    if l.wrap then
      decide (cellAt l.cells ((y + d.2) % l.height) ((x + d.1) % l.width) = 1)
    else
      decide (0 ≤ x + d.1) && decide (x + d.1 < l.width) &&
      decide (0 ≤ y + d.2) && decide (y + d.2 < l.height) &&
      decide (cellAt l.cells (y + d.2) (x + d.1) = 1))

/-- Membership of the horizontal blinker pattern: the ALIVE cells
(1,2), (2,2), (3,2). -/
def horizBlinker (x y : Int) : Prop := y = 2 ∧ (x = 1 ∨ x = 2 ∨ x = 3)

instance (x y : Int) : Decidable (horizBlinker x y) := by
  unfold horizBlinker; infer_instance

/-- Membership of the vertical blinker pattern: the ALIVE cells
(2,1), (2,2), (2,3). -/
def vertBlinker (x y : Int) : Prop := x = 2 ∧ (y = 1 ∨ y = 2 ∨ y = 3)

instance (x y : Int) : Decidable (vertBlinker x y) := by
  unfold vertBlinker; infer_instance

/-- Number of positions of a pattern among the eight Moore neighbors of
(x,y), as a pure function of the coordinates. -/
def adjCount (P : Int → Int → Prop) [∀ a b, Decidable (P a b)] (x y : Int) : Nat :=
  (neighborOffsets.map (fun d => if P (x + d.1) (y + d.2) then 1 else 0)).sum

/-- Concrete 5 x 5 wrap-disabled engine carrying the horizontal blinker. -/
def blinker5 : Life :=
  { width := 5, height := 5,
    cells := [[0, 0, 0, 0, 0], [0, 0, 0, 0, 0], [0, 1, 1, 1, 0],
              [0, 0, 0, 0, 0], [0, 0, 0, 0, 0]],
    wrap := false }

/-- Concrete 3 x 3 wrap-enabled engine whose only ALIVE cell is (0,0). -/
def corner3Wrap : Life :=
  { width := 3, height := 3, cells := [[1, 0, 0], [0, 0, 0], [0, 0, 0]], wrap := true }

/-- Concrete 3 x 3 wrap-disabled engine whose only ALIVE cell is (0,0). -/
def corner3NoWrap : Life :=
  { width := 3, height := 3, cells := [[1, 0, 0], [0, 0, 0], [0, 0, 0]], wrap := false }

/-- Concrete 1 x 1 wrap-enabled engine whose single cell is ALIVE. -/
def single1Wrap : Life :=
  { width := 1, height := 1, cells := [[1]], wrap := true }

/-- Concrete 2 x 2 wrap-disabled engine with every cell ALIVE (a block). -/
def block2 : Life :=
  { width := 2, height := 2, cells := [[1, 1], [1, 1]], wrap := false }

/-! ### Basic lemmas about the embedding -/

/-- Reading a cell of a grid built row by row from a function. -/
theorem cellAt_build (f : Nat → Nat → Nat) (w h : Nat) (x y : Nat)
    (hx : x < w) (hy : y < h) :
    cellAt ((List.range h).map (fun y => (List.range w).map (fun x => f x y)))
      (y : Int) (x : Int) = f x y := by
  simp [cellAt, List.getD_eq_getElem?_getD, List.getElem?_map, List.getElem?_range, hx, hy]

/-- A list of zero-or-one values sums to its count of ones. -/
theorem sum_eq_count_one (xs : List Nat) (h : ∀ v ∈ xs, v ≤ 1) :
    xs.sum = xs.count 1 := by
  induction xs with
  | nil => rfl
  | cons a t ih =>
    have ha : a ≤ 1 := h a (List.mem_cons_self a t)
    have ht := ih (fun v hv => h v (List.mem_cons_of_mem a hv))
    interval_cases a <;> simp [List.count_cons, ht, Nat.add_comm]

/-- The per-cell update value is always 0 or 1. -/
theorem nextCell_le_one (l : Life) (x y : Int) : l.nextCell x y ≤ 1 := by
  unfold Life.nextCell
  split <;> split <;> omega

/-- Every cell read from a well-formed engine is 0 or 1, whatever the
indices (out-of-range reads default to 0). -/
theorem cellAt_le_one (l : Life) (hwf : WellFormed l) (y x : Int) :
    cellAt l.cells y x ≤ 1 := by
  obtain ⟨-, -, hvals⟩ := hwf
  unfold cellAt
  rcases hrow : l.cells[y.toNat]? with - | row
  · simp [List.getD_eq_getElem?_getD, hrow]
  · have hmem : row ∈ l.cells := List.getElem?_mem hrow
    rcases hv : row[x.toNat]? with - | v
    · simp [List.getD_eq_getElem?_getD, hrow, hv]
    · have : v ∈ row := List.getElem?_mem hv
      have := hvals row hmem v this
      simp [List.getD_eq_getElem?_getD, hrow, hv, this]

/-- The grid written by nextGeneration, read at an in-range position,
is the next-cell value computed from the pre-step grid. -/
theorem cellAt_nextGeneration (l : Life) (x y : Nat)
    (hx : x < l.width.toNat) (hy : y < l.height.toNat) :
    cellAt (l.nextGeneration).1.cells (y : Int) (x : Int) = l.nextCell (x : Int) (y : Int) := by
  unfold Life.nextGeneration
  exact cellAt_build (fun x y => l.nextCell (x : Int) (y : Int)) _ _ x y hx hy

/-! ### C1 and C2: the evolution rule and population consistency -/

/-- C1: for every grid and every in-bounds cell (x,y), the grid returned
by nextGeneration has that cell ALIVE exactly when either the cell was
ALIVE with a pre-step neighbor count of 2 or 3, or the cell was DEAD with
a pre-step neighbor count of exactly 3.  The embedded nextGeneration
builds the new grid from reads of the pre-step cells only and leaves the
input untouched, so order independence and no-mutation hold by
construction; this theorem states the per-cell rule against the pre-step
counts. -/
theorem C1_next_generation_rule (l : Life) (x y : Nat)
    (hx : x < l.width.toNat) (hy : y < l.height.toNat) :
    cellAt (l.nextGeneration).1.cells (y : Int) (x : Int) = 1 ↔
      ((cellAt l.cells (y : Int) (x : Int) = 1 ∧
          (l.countNeighbors (x : Int) (y : Int) = 2 ∨
           l.countNeighbors (x : Int) (y : Int) = 3)) ∨
       (cellAt l.cells (y : Int) (x : Int) ≠ 1 ∧
          l.countNeighbors (x : Int) (y : Int) = 3)) := by
  rw [cellAt_nextGeneration l x y hx hy]
  unfold Life.nextCell
  by_cases h : cellAt l.cells (y : Int) (x : Int) = 1
  · rw [if_pos h]
    split <;> rename_i hn <;> simp [h, hn]
  · rw [if_neg h]
    split <;> rename_i hn <;> simp [h, hn]

/-- Witness for C1 on the concrete 2 x 2 all-alive block at cell (0,0). -/
theorem C1_next_generation_rule_witness :
    (0 : Nat) < block2.width.toNat ∧
    (cellAt (block2.nextGeneration).1.cells ((0 : Nat) : Int) ((0 : Nat) : Int) = 1 ↔
      ((cellAt block2.cells ((0 : Nat) : Int) ((0 : Nat) : Int) = 1 ∧
          (block2.countNeighbors ((0 : Nat) : Int) ((0 : Nat) : Int) = 2 ∨
           block2.countNeighbors ((0 : Nat) : Int) ((0 : Nat) : Int) = 3)) ∨
       (cellAt block2.cells ((0 : Nat) : Int) ((0 : Nat) : Int) ≠ 1 ∧
          block2.countNeighbors ((0 : Nat) : Int) ((0 : Nat) : Int) = 3))) :=
  ⟨by decide,
   C1_next_generation_rule block2 0 0 (by decide) (by decide)⟩

/-- C2: the population value returned by nextGeneration equals the number
of ALIVE cells in the grid it returns, which is the new live grid of the
engine. -/
theorem C2_population_consistency (l : Life) :
    (l.nextGeneration).2 = countAlive (l.nextGeneration).1.cells := by
  unfold Life.nextGeneration countAlive
  simp only
  refine congrArg List.sum ?_
  refine List.map_congr_left ?_
  intro row hrow
  obtain ⟨y, hy, rfl⟩ := List.mem_map.mp hrow
  refine sum_eq_count_one _ ?_
  intro v hv
  obtain ⟨x, hx, rfl⟩ := List.mem_map.mp hv
  exact nextCell_le_one l (Int.ofNat x) (Int.ofNat y)

/-! ### C3: neighborCount against the spec-side Moore count -/

/-- A sum of zero-or-one terms described by a Boolean predicate is the
count of positions where the predicate holds. -/
theorem sum_map_eq_countP {α : Type} (l : List α) (f : α → Nat) (p : α → Bool)
    (h : ∀ a ∈ l, f a = if p a then 1 else 0) :
    (l.map f).sum = l.countP p := by
  induction l with
  | nil => rfl
  | cons a t ih =>
    have ha := h a (List.mem_cons_self a t)
    have ht := ih (fun v hv => h v (List.mem_cons_of_mem a hv))
    by_cases hp : p a <;>
      simp [List.countP_cons, ha, ht, hp, Nat.add_comm]

/-- C3: for a well-formed engine and an in-bounds cell, countNeighbors is
at most 8 and equals the spec-side Moore-neighborhood ALIVE count (each
coordinate reduced modulo width and height under wrap, out-of-range
positions contributing nothing otherwise); concretely, on the 3 x 3 grid
whose only ALIVE cell is (0,0), the count at (2,2) is 1 with wrap on and
0 with wrap off. -/
theorem C3_neighbor_count (l : Life) (x y : Int)
    (hwf : WellFormed l) (_hin : l.inBounds x y = true) :
    (l.countNeighbors x y ≤ 8 ∧
     l.countNeighbors x y = mooreAliveCount l x y) ∧
    corner3Wrap.countNeighbors 2 2 = 1 ∧
    corner3NoWrap.countNeighbors 2 2 = 0 := by
  have key : l.countNeighbors x y = mooreAliveCount l x y := by
    unfold Life.countNeighbors mooreAliveCount
    refine sum_map_eq_countP _ _ _ ?_
    intro d _
    by_cases hw : l.wrap
    · simp only [hw, if_true]
      unfold Life.getWrapped
      rw [Int.add_emod_self, Int.add_emod_self]
      have hle := cellAt_le_one l hwf ((y + d.2) % l.height) ((x + d.1) % l.width)
      by_cases h1 : cellAt l.cells ((y + d.2) % l.height) ((x + d.1) % l.width) = 1
      · simp [h1]
      · simp [h1]
        omega
    · simp only [hw, if_false, Bool.false_eq_true]
      by_cases hb : l.inBounds (x + d.1) (y + d.2) = true
      · rw [if_pos hb]
        unfold Life.inBounds at hb
        simp only [Bool.and_eq_true, decide_eq_true_eq] at hb
        obtain ⟨⟨⟨hb1, hb2⟩, hb3⟩, hb4⟩ := hb
        have hle := cellAt_le_one l hwf (y + d.2) (x + d.1)
        by_cases h1 : cellAt l.cells (y + d.2) (x + d.1) = 1
        · simp [h1, hb1, hb2, hb3, hb4]
        · simp [h1, hb1, hb2, hb3, hb4]
          omega
      · rw [if_neg hb]
        unfold Life.inBounds at hb
        simp only [Bool.and_eq_true, decide_eq_true_eq] at hb
        by_cases hb1 : 0 ≤ x + d.1 <;>
          by_cases hb2 : x + d.1 < l.width <;>
          by_cases hb3 : 0 ≤ y + d.2 <;>
          by_cases hb4 : y + d.2 < l.height <;>
          simp [hb1, hb2, hb3, hb4] at hb ⊢
  refine ⟨⟨?_, key⟩, by decide, by decide⟩
  rw [key]
  unfold mooreAliveCount
  exact Nat.le_trans (List.countP_le_length _) (by decide)

/-- Witness for C3 on the 3 x 3 wrap grid at its center cell. -/
theorem C3_neighbor_count_witness :
    WellFormed corner3Wrap ∧ corner3Wrap.inBounds 1 1 = true ∧
    (corner3Wrap.countNeighbors 1 1 ≤ 8 ∧
     corner3Wrap.countNeighbors 1 1 = mooreAliveCount corner3Wrap 1 1) :=
  ⟨by decide, by decide,
   (C3_neighbor_count corner3Wrap 1 1 (by decide) (by decide)).1⟩

/-! ### C4: dimension invariance -/

/-- The grid written by nextGeneration always has height rows of width
cells each. -/
theorem nextGeneration_dims (l : Life) :
    (l.nextGeneration).1.cells.length = l.height.toNat ∧
    ∀ row ∈ (l.nextGeneration).1.cells, row.length = l.width.toNat := by
  unfold Life.nextGeneration
  constructor
  · simp
  · intro row hrow
    simp only [List.mem_map] at hrow
    obtain ⟨y, -, rfl⟩ := hrow
    simp

/-- C4: with positive dimensions, the grid produced by nextGeneration has
exactly the width and height of its input engine, and toggle, clear and
randomize never change width or height (neither the stored fields nor, on
a well-formed engine, the shape of the grid). -/
theorem C4_dimension_invariance (l : Life)
    (_hpw : 0 < l.width) (_hph : 0 < l.height) (hwf : WellFormed l) :
    ((l.nextGeneration).1.width = l.width ∧
     (l.nextGeneration).1.height = l.height ∧
     (l.nextGeneration).1.cells.length = l.height.toNat ∧
     (∀ row ∈ (l.nextGeneration).1.cells, row.length = l.width.toNat)) ∧
    ((l.clear).width = l.width ∧ (l.clear).height = l.height ∧
     (l.clear).cells.length = l.height.toNat ∧
     (∀ row ∈ (l.clear).cells, row.length = l.width.toNat)) ∧
    (∀ prob draw,
      (l.randomize prob draw).width = l.width ∧
      (l.randomize prob draw).height = l.height ∧
      (l.randomize prob draw).cells.length = l.height.toNat ∧
      (∀ row ∈ (l.randomize prob draw).cells, row.length = l.width.toNat)) ∧
    (∀ x y l2, l.toggle x y = some l2 →
      l2.width = l.width ∧ l2.height = l.height ∧
      l2.cells.length = l.height.toNat ∧
      (∀ row ∈ l2.cells, row.length = l.width.toNat)) := by
  obtain ⟨hlen, hrows, -⟩ := hwf
  refine ⟨?_, ?_, ?_, ?_⟩
  · refine ⟨rfl, rfl, (nextGeneration_dims l).1, (nextGeneration_dims l).2⟩
  · refine ⟨rfl, rfl, by simp [Life.clear, createEmpty], ?_⟩
    intro row hrow
    simp only [Life.clear, createEmpty, List.mem_map] at hrow
    obtain ⟨-, -, rfl⟩ := hrow
    simp
  · intro prob draw
    refine ⟨rfl, rfl, by simp [Life.randomize], ?_⟩
    intro row hrow
    simp only [Life.randomize, List.mem_map] at hrow
    obtain ⟨-, -, rfl⟩ := hrow
    simp
  · intro x y l2 htog
    unfold Life.toggle at htog
    by_cases hguard : x < 0 ∨ x ≥ l.width ∨ y < 0 ∨ y ≥ l.height
    · rw [if_pos hguard] at htog
      exact absurd htog (by simp)
    · rw [if_neg hguard] at htog
      simp only [Option.some.injEq] at htog
      subst htog
      refine ⟨rfl, rfl, by simpa using hlen, ?_⟩
      intro row hrow
      rcases List.mem_or_eq_of_mem_set hrow with hmem | heq
      · exact hrows row hmem
      · subst heq
        rw [List.length_set]
        push_neg at hguard
        obtain ⟨hx0, hxw, hy0, hyh⟩ := hguard
        have hyn : y.toNat < l.cells.length := by
          rw [hlen]; omega
        have : rowAt l.cells y = l.cells.get ⟨y.toNat, hyn⟩ := by
          simp [rowAt, List.getD_eq_getElem?_getD, List.getElem?_eq_getElem hyn]
        rw [this]
        exact hrows _ (l.cells.get_mem _ _)

/-- Witness for C4 on the concrete 2 x 2 block engine. -/
theorem C4_dimension_invariance_witness :
    (0 < block2.width ∧ 0 < block2.height ∧ WellFormed block2) ∧
    ((block2.nextGeneration).1.width = block2.width ∧
     (block2.nextGeneration).1.height = block2.height ∧
     (block2.nextGeneration).1.cells.length = block2.height.toNat ∧
     (∀ row ∈ (block2.nextGeneration).1.cells, row.length = block2.width.toNat)) :=
  ⟨⟨by decide, by decide, by decide⟩,
   ((C4_dimension_invariance block2 (by decide) (by decide) (by decide)).1 : _)⟩

/-! ### C5: construction -/

/-- Counterexample to C5 as stated: constructing with width 0 (hence
width ≤ 0) does not fail; the source constructor performs no dimension
validation and yields an engine whose grid has three empty rows. -/
theorem C5_counterexample_no_validation :
    Life.new 0 3 true =
      some { width := 0, height := 3, cells := [[], [], []], wrap := true } := by
  decide

/-- C5 amended: construction performs no InvalidDimension validation; it
fails only with the array-allocation RangeError, exactly when height > 0
and width is not a valid array length (negative, or at least 2^32) — in
particular width 0, or any width together with height ≤ 0, is accepted —
and for positive in-range width and positive height it yields a
width x height grid in which every cell is DEAD, carrying the given wrap
flag. -/
theorem C5_construction_amended (w h : Int) (b : Bool) :
    (Life.new w h b = none ↔ 0 < h ∧ (w < 0 ∨ 2 ^ 32 ≤ w)) ∧
    (0 < w → w < 2 ^ 32 → 0 < h →
      ∃ l, Life.new w h b = some l ∧
        l.width = w ∧ l.height = h ∧ l.wrap = b ∧
        l.cells.length = h.toNat ∧
        (∀ row ∈ l.cells, row.length = w.toNat) ∧
        (∀ row ∈ l.cells, ∀ v ∈ row, v = 0)) := by
  constructor
  · unfold Life.new
    have hpow : (2 : Int) ^ 32 = 4294967296 := by norm_num
    rw [hpow]
    by_cases hc : 0 < h ∧ (w < 0 ∨ 4294967296 ≤ w)
    · rw [if_pos hc]
      simpa using hc
    · rw [if_neg hc]
      simp only [reduceCtorEq, false_iff]
      omega
  · intro hw1 hw2 hh
    have hpow : (2 : Int) ^ 32 = 4294967296 := by norm_num
    rw [hpow] at hw2
    have hc : ¬ (0 < h ∧ (w < 0 ∨ 2 ^ 32 ≤ w)) := by
      rw [hpow]
      omega
    unfold Life.new
    rw [if_neg hc]
    refine ⟨_, rfl, rfl, rfl, rfl, by simp [createEmpty], ?_, ?_⟩
    · intro row hrow
      simp only [createEmpty, List.mem_map] at hrow
      obtain ⟨-, -, rfl⟩ := hrow
      simp
    · intro row hrow v hv
      simp only [createEmpty, List.mem_map] at hrow
      obtain ⟨-, -, rfl⟩ := hrow
      exact List.eq_of_mem_replicate hv

/-- Witness for the amended C5 at 2 x 3. -/
theorem C5_construction_amended_witness :
    (0 : Int) < 2 ∧ (2 : Int) < 2 ^ 32 ∧ (0 : Int) < 3 ∧
    ∃ l, Life.new 2 3 true = some l ∧
      l.width = 2 ∧ l.height = 3 ∧ l.wrap = true ∧
      l.cells.length = (3 : Int).toNat ∧
      (∀ row ∈ l.cells, row.length = (2 : Int).toNat) ∧
      (∀ row ∈ l.cells, ∀ v ∈ row, v = 0) :=
  ⟨by decide, by decide, by decide,
   (C5_construction_amended 2 3 true).2 (by decide) (by decide) (by decide)⟩

/-! ### C6: toggle bounds checking and single-cell effect -/

/-- C6: toggling at any position outside [0,width) x [0,height) — in
particular at (-1,0) and (width,0) — is rejected (none, the OutOfBounds
outcome, so the engine grid is left untouched), while a successful toggle
flips exactly the cell (x,y) and no other. -/
theorem C6_toggle_bounds (l : Life) (x y : Int) (hwf : WellFormed l) :
    (¬ (0 ≤ x ∧ x < l.width ∧ 0 ≤ y ∧ y < l.height) → l.toggle x y = none) ∧
    (l.toggle (-1) 0 = none ∧ l.toggle l.width 0 = none) ∧
    ((0 ≤ x ∧ x < l.width ∧ 0 ≤ y ∧ y < l.height) →
      ∃ l2, l.toggle x y = some l2 ∧
        cellAt l2.cells y x = (if cellAt l.cells y x = 1 then 0 else 1) ∧
        (∀ x2 y2 : Int, 0 ≤ x2 → x2 < l.width → 0 ≤ y2 → y2 < l.height →
          ¬ (x2 = x ∧ y2 = y) → cellAt l2.cells y2 x2 = cellAt l.cells y2 x2)) := by
  obtain ⟨hlen, hrows, -⟩ := hwf
  refine ⟨?_, ⟨?_, ?_⟩, ?_⟩
  · intro hout
    unfold Life.toggle
    rw [if_pos (by omega)]
  · unfold Life.toggle
    rw [if_pos (by omega)]
  · unfold Life.toggle
    rw [if_pos (by omega)]
  · rintro ⟨hx0, hxw, hy0, hyh⟩
    have hguard : ¬ (x < 0 ∨ x ≥ l.width ∨ y < 0 ∨ y ≥ l.height) := by omega
    have hyn : y.toNat < l.cells.length := by rw [hlen]; omega
    have hrowAt : rowAt l.cells y = l.cells[y.toNat] := by
      simp [rowAt, List.getD_eq_getElem?_getD, List.getElem?_eq_getElem hyn]
    have hxlen : x.toNat < (rowAt l.cells y).length := by
      rw [hrowAt, hrows _ (List.getElem_mem hyn)]
      omega
    refine ⟨⟨l.width, l.height, l.cells.set y.toNat ((rowAt l.cells y).set x.toNat (if cellAt l.cells y x = 1 then 0 else 1)), l.wrap⟩, ?_, ?_, ?_⟩
    · unfold Life.toggle
      rw [if_neg hguard]
    · simp only [cellAt, List.getD_eq_getElem?_getD,
        List.getElem?_set_self hyn, Option.getD_some]
      rw [List.getElem?_set_self (by omega), Option.getD_some]
    · intro x2 y2 hx20 hx2w hy20 hy2h hne
      by_cases hyy : y2.toNat = y.toNat
      · have hy2y : y2 = y := by omega
        subst hy2y
        have hxx : x2.toNat ≠ x.toNat := by omega
        simp only [cellAt, List.getD_eq_getElem?_getD,
          List.getElem?_set_self hyn, Option.getD_some, hyy]
        rw [List.getElem?_set_ne (Ne.symm hxx)]
        rw [hrowAt, List.getElem?_eq_getElem hyn]
        rfl
      · simp only [cellAt, List.getD_eq_getElem?_getD]
        rw [List.getElem?_set_ne (Ne.symm hyy)]

/-- Witness for C6 on the concrete 2 x 2 block engine at cell (0,1). -/
theorem C6_toggle_bounds_witness :
    WellFormed block2 ∧
    (block2.toggle (-1) 0 = none ∧ block2.toggle block2.width 0 = none) :=
  ⟨by decide, (C6_toggle_bounds block2 0 1 (by decide)).2.1⟩

/-! ### C8: toggling twice restores the grid -/

/-- Setting a position of a list to its current value changes nothing. -/
theorem list_set_self {α : Type} (l : List α) (i : Nat) (h : i < l.length) :
    l.set i l[i] = l := by
  apply List.ext_getElem?
  intro j
  rcases eq_or_ne i j with rfl | hne
  · rw [List.getElem?_set_self h, List.getElem?_eq_getElem h]
  · rw [List.getElem?_set_ne hne]

/-- C8: on a well-formed engine, a successful toggle followed by a second
toggle of the same in-bounds cell yields back exactly the original
engine. -/
theorem C8_toggle_twice (l : Life) (x y : Int) (hwf : WellFormed l) (l1 : Life)
    (h1 : l.toggle x y = some l1) :
    ∃ l2, l1.toggle x y = some l2 ∧ l2 = l := by
  obtain ⟨hlen, hrows, hvals⟩ := hwf
  unfold Life.toggle at h1
  by_cases hguard : x < 0 ∨ x ≥ l.width ∨ y < 0 ∨ y ≥ l.height
  · rw [if_pos hguard] at h1
    exact absurd h1 (by simp)
  · rw [if_neg hguard] at h1
    simp only [Option.some.injEq] at h1
    push_neg at hguard
    obtain ⟨hx0, hxw, hy0, hyh⟩ := hguard
    have hyn : y.toNat < l.cells.length := by rw [hlen]; omega
    have hrowAt : rowAt l.cells y = l.cells[y.toNat] := by
      simp [rowAt, List.getD_eq_getElem?_getD, List.getElem?_eq_getElem hyn]
    have hxlen : x.toNat < (rowAt l.cells y).length := by
      rw [hrowAt, hrows _ (List.getElem_mem hyn)]
      omega
    have hold : cellAt l.cells y x = (rowAt l.cells y)[x.toNat] := by
      show (rowAt l.cells y).getD x.toNat 0 = _
      rw [List.getD_eq_getElem?_getD, List.getElem?_eq_getElem hxlen, Option.getD_some]
    have holdle : cellAt l.cells y x ≤ 1 := by
      rw [hold]
      exact hvals _ (hrowAt ▸ List.getElem_mem hyn) _ (List.getElem_mem hxlen)
    subst h1
    unfold Life.toggle
    rw [if_neg (show ¬ (x < 0 ∨ x ≥ l.width ∨ y < 0 ∨ y ≥ l.height) by omega)]
    refine ⟨_, rfl, ?_⟩
    have hyn1 : y.toNat <
        (l.cells.set y.toNat
          ((rowAt l.cells y).set x.toNat (if cellAt l.cells y x = 1 then 0 else 1))).length := by
      rw [List.length_set]
      exact hyn
    have hrow1 : rowAt
        (l.cells.set y.toNat
          ((rowAt l.cells y).set x.toNat (if cellAt l.cells y x = 1 then 0 else 1))) y =
        (rowAt l.cells y).set x.toNat (if cellAt l.cells y x = 1 then 0 else 1) := by
      simp [rowAt, List.getD_eq_getElem?_getD, List.getElem?_set_self hyn]
    have hcell1 : cellAt
        (l.cells.set y.toNat
          ((rowAt l.cells y).set x.toNat (if cellAt l.cells y x = 1 then 0 else 1))) y x =
        (if cellAt l.cells y x = 1 then 0 else 1) := by
      simp only [cellAt, List.getD_eq_getElem?_getD, List.getElem?_set_self hyn,
        Option.getD_some]
      rw [List.getElem?_set_self (by omega), Option.getD_some]
    have hback : (if cellAt
        (l.cells.set y.toNat
          ((rowAt l.cells y).set x.toNat (if cellAt l.cells y x = 1 then 0 else 1))) y x = 1
        then 0 else 1) = cellAt l.cells y x := by
      rw [hcell1]
      rcases Nat.lt_or_ge (cellAt l.cells y x) 1 with hlt | hge
      · have h0 : cellAt l.cells y x = 0 := by omega
        rw [h0]
        norm_num
      · have h1 : cellAt l.cells y x = 1 := by omega
        rw [h1]
        norm_num
    have hcells : (l.cells.set y.toNat
          ((rowAt l.cells y).set x.toNat (if cellAt l.cells y x = 1 then 0 else 1))).set y.toNat
        (rowAt (l.cells.set y.toNat
            ((rowAt l.cells y).set x.toNat (if cellAt l.cells y x = 1 then 0 else 1))) y |>.set
          x.toNat (if cellAt (l.cells.set y.toNat
              ((rowAt l.cells y).set x.toNat
                (if cellAt l.cells y x = 1 then 0 else 1))) y x = 1 then 0 else 1)) =
        l.cells := by
      rw [hback, hrow1, List.set_set, List.set_set, hold,
        list_set_self _ _ hxlen, hrowAt, list_set_self _ _ hyn]
    exact congrArg (fun c => ({ l with cells := c } : Life)) hcells

/-- Witness for C8 on the concrete 2 x 2 block engine at cell (1,0). -/
theorem C8_toggle_twice_witness :
    WellFormed block2 ∧
    ∃ l1, block2.toggle 1 0 = some l1 ∧
      ∃ l2, l1.toggle 1 0 = some l2 ∧ l2 = block2 := by
  refine ⟨by decide,
    ⟨{ width := 2, height := 2, cells := [[1, 0], [1, 1]], wrap := false }, by decide, ?_⟩⟩
  exact C8_toggle_twice block2 1 0 (by decide) _ (by decide)

/-! ### C9: clear and the randomize extremes -/

/-- C9: clear yields an all-DEAD grid (population 0); with every draw in
[0,1), randomize with probability 0 yields an all-DEAD grid and randomize
with probability 1 yields an all-ALIVE grid whose population is
width x height. -/
theorem C9_clear_randomize (l : Life) (draw : Nat → Nat → ℚ)
    (hdraw : ∀ y x, 0 ≤ draw y x ∧ draw y x < 1) :
    (countAlive (l.clear).cells = 0 ∧
      ∀ row ∈ (l.clear).cells, ∀ v ∈ row, v = 0) ∧
    (countAlive (l.randomize 0 draw).cells = 0 ∧
      ∀ row ∈ (l.randomize 0 draw).cells, ∀ v ∈ row, v = 0) ∧
    (countAlive (l.randomize 1 draw).cells = l.width.toNat * l.height.toNat ∧
      ∀ row ∈ (l.randomize 1 draw).cells, ∀ v ∈ row, v = 1) := by
  refine ⟨⟨?_, ?_⟩, ⟨?_, ?_⟩, ⟨?_, ?_⟩⟩
  · simp [Life.clear, createEmpty, countAlive, List.count_replicate]
  · intro row hrow v hv
    simp only [Life.clear, createEmpty, List.mem_map] at hrow
    obtain ⟨-, -, rfl⟩ := hrow
    exact List.eq_of_mem_replicate hv
  · have hcell : ∀ y x : Nat, (if draw y x < 0 then (1 : Nat) else 0) = 0 := by
      intro y x
      rw [if_neg (not_lt.mpr (hdraw y x).1)]
    simp [Life.randomize, countAlive, hcell, List.count_replicate]
  · intro row hrow v hv
    simp only [Life.randomize, List.mem_map] at hrow
    obtain ⟨y, -, rfl⟩ := hrow
    simp only [List.mem_map] at hv
    obtain ⟨xx, -, rfl⟩ := hv
    rw [if_neg (not_lt.mpr (hdraw y xx).1)]
  · have hcell : ∀ y x : Nat, (if draw y x < 1 then (1 : Nat) else 0) = 1 := by
      intro y x
      rw [if_pos (hdraw y x).2]
    simp [Life.randomize, countAlive, hcell, List.count_replicate, Nat.mul_comm]
  · intro row hrow v hv
    simp only [Life.randomize, List.mem_map] at hrow
    obtain ⟨y, -, rfl⟩ := hrow
    simp only [List.mem_map] at hv
    obtain ⟨xx, -, rfl⟩ := hv
    rw [if_pos (hdraw y xx).2]

/-- Witness for C9 on the concrete 2 x 2 block engine with the constant
one-half draw. -/
theorem C9_clear_randomize_witness :
    (∀ y x : Nat, 0 ≤ (fun _ _ => (1 : ℚ) / 2) y x ∧
        (fun _ _ => (1 : ℚ) / 2) y x < 1) ∧
    (countAlive (block2.clear).cells = 0 ∧
      ∀ row ∈ (block2.clear).cells, ∀ v ∈ row, v = 0) :=
  ⟨fun y x => ⟨by norm_num, by norm_num⟩,
   (C9_clear_randomize block2 (fun _ _ => (1 : ℚ) / 2)
      (fun y x => ⟨by norm_num, by norm_num⟩)).1⟩

/-! ### C10: offset collisions on wrap-enabled grids thinner than 3 -/

/-- C10: on the 1 x 1 wrap-enabled grid whose single cell is ALIVE, all
eight distinct neighbor offsets resolve, after the modulo reduction, to
the one cell (0,0), which is therefore counted once per offset:
countNeighbors(0,0) is 8, so the cell dies on the next generation
(population 0). -/
theorem C10_wrap_collision :
    single1Wrap.countNeighbors 0 0 = 8 ∧
    cellAt (single1Wrap.nextGeneration).1.cells 0 0 = 0 ∧
    (single1Wrap.nextGeneration).2 = 0 ∧
    (∀ d ∈ neighborOffsets,
      ((0 + d.1 + single1Wrap.width) % single1Wrap.width,
       (0 + d.2 + single1Wrap.height) % single1Wrap.height) = ((0 : Int), (0 : Int))) ∧
    neighborOffsets.length = 8 := by
  decide

/-! ### C7: the blinker oscillator on any non-wrapping grid of size at
least 5 x 5 -/

/-- On a wrap-disabled well-formed engine whose ALIVE set is exactly an
in-bounds pattern P, countNeighbors agrees with the pure adjacency count
of P. -/
theorem countNeighbors_eq_adjCount (l : Life) (P : Int → Int → Prop)
    [∀ a b, Decidable (P a b)]
    (hw : l.wrap = false) (hwf : WellFormed l)
    (hchar : ∀ x y : Int, 0 ≤ x → x < l.width → 0 ≤ y → y < l.height →
      (cellAt l.cells y x = 1 ↔ P x y))
    (hPb : ∀ x y : Int, P x y → 0 ≤ x ∧ x < l.width ∧ 0 ≤ y ∧ y < l.height)
    (x y : Int) :
    l.countNeighbors x y = adjCount P x y := by
  unfold Life.countNeighbors adjCount
  refine congrArg List.sum (List.map_congr_left ?_)
  intro d _
  rw [hw]
  simp only [Bool.false_eq_true, if_false]
  by_cases hb : l.inBounds (x + d.1) (y + d.2) = true
  · rw [if_pos hb]
    unfold Life.inBounds at hb
    simp only [Bool.and_eq_true, decide_eq_true_eq] at hb
    obtain ⟨⟨⟨hb1, hb2⟩, hb3⟩, hb4⟩ := hb
    have hiff := hchar (x + d.1) (y + d.2) hb1 hb2 hb3 hb4
    have hle := cellAt_le_one l hwf (y + d.2) (x + d.1)
    by_cases hP : P (x + d.1) (y + d.2)
    · rw [if_pos hP]
      exact hiff.mpr hP
    · rw [if_neg hP]
      have : ¬ cellAt l.cells (y + d.2) (x + d.1) = 1 := fun h => hP (hiff.mp h)
      omega
  · rw [if_neg hb]
    by_cases hP : P (x + d.1) (y + d.2)
    · exfalso
      apply hb
      obtain ⟨h1, h2, h3, h4⟩ := hPb _ _ hP
      unfold Life.inBounds
      simp [h1, h2, h3, h4]
    · rw [if_neg hP]

/-- The grid written by nextGeneration is always well-formed. -/
theorem nextGeneration_wellFormed (l : Life) :
    WellFormed (l.nextGeneration).1 := by
  refine ⟨(nextGeneration_dims l).1, (nextGeneration_dims l).2, ?_⟩
  intro row hrow v hv
  unfold Life.nextGeneration at hrow
  simp only [List.mem_map] at hrow
  obtain ⟨y, -, rfl⟩ := hrow
  simp only [List.mem_map] at hv
  obtain ⟨x, -, rfl⟩ := hv
  exact nextCell_le_one l (Int.ofNat x) (Int.ofNat y)

/-- Generic pattern-step lemma: if the ALIVE set of a wrap-disabled
well-formed engine is exactly the in-bounds pattern P, and the pure
life rule sends the adjacency structure of P to the pattern Q, then the
ALIVE set after one nextGeneration is exactly Q. -/
theorem nextGeneration_pattern_char (l : Life) (P Q : Int → Int → Prop)
    [∀ a b, Decidable (P a b)] [∀ a b, Decidable (Q a b)]
    (hw : l.wrap = false) (hwf : WellFormed l)
    (hchar : ∀ x y : Int, 0 ≤ x → x < l.width → 0 ≤ y → y < l.height →
      (cellAt l.cells y x = 1 ↔ P x y))
    (hPb : ∀ x y : Int, P x y → 0 ≤ x ∧ x < l.width ∧ 0 ≤ y ∧ y < l.height)
    (hrule : ∀ x y : Int, 0 ≤ x → 0 ≤ y →
      ((P x y ∧ (adjCount P x y = 2 ∨ adjCount P x y = 3)) ∨
        (¬ P x y ∧ adjCount P x y = 3) ↔ Q x y)) :
    ∀ x y : Int, 0 ≤ x → x < l.width → 0 ≤ y → y < l.height →
      (cellAt (l.nextGeneration).1.cells y x = 1 ↔ Q x y) := by
  intro x y hx0 hxw hy0 hyh
  obtain ⟨m, rfl⟩ : ∃ m : Nat, x = (m : Int) := ⟨x.toNat, (Int.toNat_of_nonneg hx0).symm⟩
  obtain ⟨n, rfl⟩ : ∃ n : Nat, y = (n : Int) := ⟨y.toNat, (Int.toNat_of_nonneg hy0).symm⟩
  rw [cellAt_nextGeneration l m n (by omega) (by omega)]
  unfold Life.nextCell
  rw [countNeighbors_eq_adjCount l P hw hwf hchar hPb]
  have hc := hchar (m : Int) (n : Int) hx0 hxw hy0 hyh
  have hr := hrule (m : Int) (n : Int) hx0 hy0
  rw [← hr]
  by_cases hP : P (m : Int) (n : Int)
  · rw [if_pos (hc.mpr hP)]
    by_cases hn : adjCount P (m : Int) (n : Int) = 2 ∨ adjCount P (m : Int) (n : Int) = 3
    · rw [if_pos hn]
      simp [hP, hn]
    · rw [if_neg hn]
      simp [hP, hn]
  · rw [if_neg (fun h => hP (hc.mp h))]
    by_cases hn : adjCount P (m : Int) (n : Int) = 3
    · rw [if_pos hn]
      simp [hP, hn]
    · rw [if_neg hn]
      simp [hP, hn]

/-- Far from the horizontal blinker (x at least 5, or y at least 4) no
Moore neighbor belongs to it. -/
theorem adjCount_horiz_zero (x y : Int) (h : 5 ≤ x ∨ 4 ≤ y) :
    adjCount horizBlinker x y = 0 := by
  have hterm : ∀ dx dy : Int, -1 ≤ dx → -1 ≤ dy →
      ¬ horizBlinker (x + dx) (y + dy) := by
    intro dx dy h1 h2
    unfold horizBlinker
    omega
  unfold adjCount neighborOffsets
  simp only [List.map_cons, List.map_nil, List.sum_cons, List.sum_nil]
  rw [if_neg (hterm (-1) (-1) (by norm_num) (by norm_num)),
    if_neg (hterm 0 (-1) (by norm_num) (by norm_num)),
    if_neg (hterm 1 (-1) (by norm_num) (by norm_num)),
    if_neg (hterm (-1) 0 (by norm_num) (by norm_num)),
    if_neg (hterm 1 0 (by norm_num) (by norm_num)),
    if_neg (hterm (-1) 1 (by norm_num) (by norm_num)),
    if_neg (hterm 0 1 (by norm_num) (by norm_num)),
    if_neg (hterm 1 1 (by norm_num) (by norm_num))]
  norm_num

/-- Far from the vertical blinker (x at least 4, or y at least 5) no
Moore neighbor belongs to it. -/
theorem adjCount_vert_zero (x y : Int) (h : 4 ≤ x ∨ 5 ≤ y) :
    adjCount vertBlinker x y = 0 := by
  have hterm : ∀ dx dy : Int, -1 ≤ dx → -1 ≤ dy →
      ¬ vertBlinker (x + dx) (y + dy) := by
    intro dx dy h1 h2
    unfold vertBlinker
    omega
  unfold adjCount neighborOffsets
  simp only [List.map_cons, List.map_nil, List.sum_cons, List.sum_nil]
  rw [if_neg (hterm (-1) (-1) (by norm_num) (by norm_num)),
    if_neg (hterm 0 (-1) (by norm_num) (by norm_num)),
    if_neg (hterm 1 (-1) (by norm_num) (by norm_num)),
    if_neg (hterm (-1) 0 (by norm_num) (by norm_num)),
    if_neg (hterm 1 0 (by norm_num) (by norm_num)),
    if_neg (hterm (-1) 1 (by norm_num) (by norm_num)),
    if_neg (hterm 0 1 (by norm_num) (by norm_num)),
    if_neg (hterm 1 1 (by norm_num) (by norm_num))]
  norm_num

/-- The pure life rule sends the horizontal blinker to the vertical one. -/
theorem horiz_rule (x y : Int) (hx0 : 0 ≤ x) (hy0 : 0 ≤ y) :
    (horizBlinker x y ∧
        (adjCount horizBlinker x y = 2 ∨ adjCount horizBlinker x y = 3)) ∨
      (¬ horizBlinker x y ∧ adjCount horizBlinker x y = 3) ↔ vertBlinker x y := by
  by_cases hx : x ≤ 5
  · by_cases hy : y ≤ 5
    · interval_cases x <;> interval_cases y <;> decide
    · have hadj := adjCount_horiz_zero x y (Or.inr (by omega))
      have h1 : ¬ horizBlinker x y := by unfold horizBlinker; omega
      have h2 : ¬ vertBlinker x y := by unfold vertBlinker; omega
      simp [hadj, h1, h2]
  · have hadj := adjCount_horiz_zero x y (Or.inl (by omega))
    have h1 : ¬ horizBlinker x y := by unfold horizBlinker; omega
    have h2 : ¬ vertBlinker x y := by unfold vertBlinker; omega
    simp [hadj, h1, h2]

/-- The pure life rule sends the vertical blinker back to the horizontal
one. -/
theorem vert_rule (x y : Int) (hx0 : 0 ≤ x) (hy0 : 0 ≤ y) :
    (vertBlinker x y ∧
        (adjCount vertBlinker x y = 2 ∨ adjCount vertBlinker x y = 3)) ∨
      (¬ vertBlinker x y ∧ adjCount vertBlinker x y = 3) ↔ horizBlinker x y := by
  by_cases hx : x ≤ 5
  · by_cases hy : y ≤ 5
    · interval_cases x <;> interval_cases y <;> decide
    · have hadj := adjCount_vert_zero x y (Or.inr (by omega))
      have h1 : ¬ vertBlinker x y := by unfold vertBlinker; omega
      have h2 : ¬ horizBlinker x y := by unfold horizBlinker; omega
      simp [hadj, h1, h2]
  · have hadj := adjCount_vert_zero x y (Or.inl (by omega))
    have h1 : ¬ vertBlinker x y := by unfold vertBlinker; omega
    have h2 : ¬ horizBlinker x y := by unfold horizBlinker; omega
    simp [hadj, h1, h2]

/-- C7: on any wrap-disabled well-formed grid of size at least 5 x 5
whose ALIVE set is exactly the horizontal blinker (1,2),(2,2),(3,2), one
nextGeneration makes the ALIVE set exactly the vertical blinker
(2,1),(2,2),(2,3), and a second nextGeneration restores exactly the
original horizontal ALIVE set. -/
theorem C7_blinker_oscillator (l : Life)
    (hw : l.wrap = false) (hwf : WellFormed l)
    (hW : 5 ≤ l.width) (hH : 5 ≤ l.height)
    (hchar : ∀ x y : Int, 0 ≤ x → x < l.width → 0 ≤ y → y < l.height →
      (cellAt l.cells y x = 1 ↔ horizBlinker x y)) :
    (∀ x y : Int, 0 ≤ x → x < l.width → 0 ≤ y → y < l.height →
      (cellAt (l.nextGeneration).1.cells y x = 1 ↔ vertBlinker x y)) ∧
    (∀ x y : Int, 0 ≤ x → x < l.width → 0 ≤ y → y < l.height →
      (cellAt ((l.nextGeneration).1.nextGeneration).1.cells y x = 1 ↔
        horizBlinker x y)) := by
  have hPbH : ∀ x y : Int, horizBlinker x y →
      0 ≤ x ∧ x < l.width ∧ 0 ≤ y ∧ y < l.height := by
    intro x y hp
    unfold horizBlinker at hp
    omega
  have step1 := nextGeneration_pattern_char l horizBlinker vertBlinker
    hw hwf hchar hPbH horiz_rule
  refine ⟨step1, ?_⟩
  have hPbV : ∀ x y : Int, vertBlinker x y →
      0 ≤ x ∧ x < (l.nextGeneration).1.width ∧ 0 ≤ y ∧
        y < (l.nextGeneration).1.height := by
    intro x y hp
    unfold vertBlinker at hp
    have hw' : (l.nextGeneration).1.width = l.width := rfl
    have hh' : (l.nextGeneration).1.height = l.height := rfl
    rw [hw', hh']
    omega
  have step2 := nextGeneration_pattern_char (l.nextGeneration).1
    vertBlinker horizBlinker hw (nextGeneration_wellFormed l) step1 hPbV vert_rule
  exact step2

/-- Witness for C7 on the concrete 5 x 5 blinker engine: the middle cells
of the two generations. -/
theorem C7_blinker_oscillator_witness :
    blinker5.wrap = false ∧ WellFormed blinker5 ∧
    (cellAt (blinker5.nextGeneration).1.cells 1 2 = 1 ↔ vertBlinker 2 1) ∧
    (cellAt ((blinker5.nextGeneration).1.nextGeneration).1.cells 2 1 = 1 ↔
      horizBlinker 1 2) := by
  have hchar : ∀ x y : Int, 0 ≤ x → x < blinker5.width → 0 ≤ y →
      y < blinker5.height →
      (cellAt blinker5.cells y x = 1 ↔ horizBlinker x y) := by
    intro x y hx0 hxw hy0 hyh
    have h1 : x < 5 := hxw
    have h2 : y < 5 := hyh
    interval_cases x <;> interval_cases y <;> decide
  have hmain := C7_blinker_oscillator blinker5 rfl (by decide)
    (by decide) (by decide) hchar
  exact ⟨rfl, by decide,
    hmain.1 2 1 (by decide) (by decide) (by decide) (by decide),
    hmain.2 1 2 (by decide) (by decide) (by decide) (by decide)⟩
